import Mathlib

/-!
Verification of the Credible Confessions webapp against its specification.

The repository's JavaScript sources (`webapp/index.js`, `webapp/src/App.js`,
the verify page) are embedded shallowly below: DOM mutation and network
calls are replaced by explicit event traces and by parameters holding the
fetched data, while every branch, loop and early return of the source is
mirrored.  The cryptographic core (Prove / Verify / IsSecretKey) lives in a
Rust/wasm worker that is not among the repository files, so it is modelled
from the specification's description of the AOS ring-signature scheme.
-/

namespace CredibleConfessions

/-! ## The cryptographic core, modelled from the specification

Modelled from the spec: the Rust/wasm ring-signature core (the `prove`,
`verify` and `is_secret_key` functions imported by the worker) is not under
the repository's source files; only the worker that calls it is.  The
definitions below follow §3-§4.4 of the spec: scalars are ℤ/ℓ, points live
in the prime-order subgroup generated by the base point `B` (any group with
a ℤ/ℓ-action), and the hash-to-scalar `H` is kept as a parameter — every
result below holds for the SHA-512-based instance the spec fixes, and for
any other deterministic hash. -/

/-- The order ℓ of the prime-order subgroup of Ed25519 (spec §3, "Scalar"). -/
def L : ℕ := 2 ^ 252 + 27742317777372353535851937790883648493

/-- Scalars of the ring-signature scheme: elements of ℤ/ℓ (spec §3). -/
abbrev Scalar : Type := ZMod L

/-- Modelled from the spec: a signature σ = ⟨c₀, s₀, …, s_{n−1}⟩ — the
starting challenge together with the per-member responses (spec §3,
"Signature"). -/
structure Sig where
  c0 : Scalar
  ss : List Scalar
deriving DecidableEq

section Core

variable {G : Type} [AddCommGroup G] [Module Scalar G] [DecidableEq G]
variable (B : G) (H : List G → String → G → Scalar)
variable (ring : List G) (M : String) (a u : Scalar) (ds : ℕ → Scalar)

/-- Modelled from the spec: one link of the challenge chain (spec §4.2, §4.4):
from the challenge `c` at a position with response `s` and ring member `P`,
recompute the commitment `R = s·B − c·P` and hash the transcript to get the
next challenge. -/
def chainStep (c : Scalar) (sP : Scalar × G) : Scalar :=
  H ring M (sP.1 • B - c • sP.2)

/-- The challenge chain: folding `chainStep` over successive
(response, ring member) pairs. -/
def chain (c : Scalar) (l : List (Scalar × G)) : Scalar :=
  l.foldl (chainStep B H ring M) c

/-- Modelled from the spec: Verify (spec §4.4).  Recompute the challenge
chain from position 0 and accept (empty string) iff it closes on the stored
starting challenge `c₀`.  The ring size must match the number of responses. -/
def verify (σ : Sig) : String :=
  if σ.ss.length ≠ ring.length then "PARSE_SIG"
  else if chain B H ring M σ.c0 (σ.ss.zip ring) = σ.c0 then ""
  else "SIG_MISMATCH"

/-- The signer's position π in the ring: the index of A = a·B (spec §4.3). -/
def signerIndex : ℕ := List.indexOf (a • B) ring

/-- The decoy responses s_i drawn for the n−1 non-signer positions, read off
the caller-supplied randomness tape `ds` (spec §4.3 step 3). -/
def proveDecoys : List Scalar := (List.range (ring.length - 1)).map ds

/-- Modelled from the spec: the walk of §4.3 steps 1-3, transported to the
ring rotated so that the signer sits first.  Starting from
c_{π+1} = H(ring ‖ M ‖ u·B), fold the chain through the n−1 decoy
positions; the result is the challenge c_π at the signer's own position. -/
def proveCW : Scalar :=
  chain B H ring M (H ring M (u • B))
    ((proveDecoys ring ds).zip (ring.rotate (signerIndex B ring a)).tail)

/-- The responses in rotated order: the signer's closing response
s_π = u + c_π·a (spec §4.3 step 4) followed by the decoys. -/
def proveSS : List Scalar :=
  (u + proveCW B H ring M a u ds * a) :: proveDecoys ring ds

/-- Modelled from the spec: the emitted signature (spec §4.3 step 5).  The
challenge c₀ at the ring's canonical position 0 is obtained by walking the
chain n − π further steps from c_π, and the responses are rotated back from
signer-first order to ring order. -/
def proveSig : Sig :=
  ⟨chain B H ring M (proveCW B H ring M a u ds)
      (((proveSS B H ring M a u ds).zip (ring.rotate (signerIndex B ring a))).take
        (ring.length - signerIndex B ring a)),
    (proveSS B H ring M a u ds).rotate (ring.length - signerIndex B ring a)⟩

/-- Modelled from the spec: Prove (spec §4.3, §4.6).  The signer locates the
public key A = a·B in the ring; absence is the SIGNER_NOT_IN_RING error.
Randomness (the nonce u and the decoy tape ds) is passed explicitly. -/
def prove : Except String Sig :=
  if a • B ∈ ring then Except.ok (proveSig B H ring M a u ds)
  else Except.error "SIGNER_NOT_IN_RING"

theorem chain_append (c : Scalar) (l₁ l₂ : List (Scalar × G)) :
    chain B H ring M c (l₁ ++ l₂) =
      chain B H ring M (chain B H ring M c l₁) l₂ :=
  List.foldl_append _ _ _ _

theorem chain_rotate_closed {c : Scalar} {l : List (Scalar × G)} {k : ℕ}
    (hk : k ≤ l.length) (hc : chain B H ring M c l = c) :
    chain B H ring M (chain B H ring M c (l.take k)) (l.rotate k) =
      chain B H ring M c (l.take k) := by
  have h1 : chain B H ring M (chain B H ring M c (l.take k)) (l.drop k) = c := by
    rw [← chain_append, List.take_append_drop, hc]
  rw [List.rotate_eq_drop_append_take hk, chain_append, h1]

theorem rotate_signer_cons (hA : a • B ∈ ring) :
    ring.rotate (signerIndex B ring a) =
      a • B ::
        (ring.drop (signerIndex B ring a + 1) ++ ring.take (signerIndex B ring a)) := by
  have hp : List.indexOf (a • B) ring < ring.length := List.indexOf_lt_length.2 hA
  unfold signerIndex
  rw [List.rotate_eq_drop_append_take hp.le, List.drop_eq_getElem_cons hp,
    List.getElem_indexOf hp, List.cons_append]

theorem chain_proveSS_closed (hA : a • B ∈ ring) :
    chain B H ring M (proveCW B H ring M a u ds)
      ((proveSS B H ring M a u ds).zip (ring.rotate (signerIndex B ring a))) =
      proveCW B H ring M a u ds := by
  rw [rotate_signer_cons B ring a hA, proveSS, List.zip_cons_cons]
  show chain B H ring M
      (chainStep B H ring M (proveCW B H ring M a u ds)
        (u + proveCW B H ring M a u ds * a, a • B)) _ = _
  have hstep : chainStep B H ring M (proveCW B H ring M a u ds)
      (u + proveCW B H ring M a u ds * a, a • B) = H ring M (u • B) := by
    rw [chainStep]
    congr 1
    rw [add_smul, smul_smul, add_sub_cancel_right]
  rw [hstep]
  conv_rhs => rw [proveCW, rotate_signer_cons B ring a hA, List.tail_cons]

theorem proveSig_verify (hA : a • B ∈ ring) :
    verify B H ring M (proveSig B H ring M a u ds) = "" := by
  have hp : signerIndex B ring a < ring.length := List.indexOf_lt_length.2 hA
  have hlenQ : (ring.rotate (signerIndex B ring a)).length = ring.length :=
    List.length_rotate ring _
  have hlend : (proveDecoys ring ds).length = ring.length - 1 := by
    rw [proveDecoys, List.length_map, List.length_range]
  have hlenss : (proveSS B H ring M a u ds).length = ring.length := by
    rw [proveSS, List.length_cons, hlend]
    omega
  have hzip : ((proveSS B H ring M a u ds).rotate
        (ring.length - signerIndex B ring a)).zip
        ((ring.rotate (signerIndex B ring a)).rotate
          (ring.length - signerIndex B ring a)) =
      ((proveSS B H ring M a u ds).zip
          (ring.rotate (signerIndex B ring a))).rotate
        (ring.length - signerIndex B ring a) := by
    rw [List.zip_eq_zipWith, List.zip_eq_zipWith,
      List.zipWith_rotate_distrib _ _ _ _ (by rw [hlenss, hlenQ])]
  have hring : (ring.rotate (signerIndex B ring a)).rotate
      (ring.length - signerIndex B ring a) = ring := by
    rw [List.rotate_rotate]
    have : signerIndex B ring a + (ring.length - signerIndex B ring a) =
        ring.length := by omega
    rw [this, List.rotate_length]
  have hlenzip : ((proveSS B H ring M a u ds).zip
      (ring.rotate (signerIndex B ring a))).length = ring.length := by
    rw [List.length_zip, hlenss, hlenQ, min_self]
  have hclosed := chain_proveSS_closed B H ring M a u ds hA
  have hrot := chain_rotate_closed B H ring M
    (l := (proveSS B H ring M a u ds).zip (ring.rotate (signerIndex B ring a)))
    (k := ring.length - signerIndex B ring a)
    (by rw [hlenzip]; omega) hclosed
  rw [← hzip] at hrot
  rw [hring] at hrot
  rw [verify]
  have hss : (proveSig B H ring M a u ds).ss =
      (proveSS B H ring M a u ds).rotate (ring.length - signerIndex B ring a) :=
    rfl
  have hc0 : (proveSig B H ring M a u ds).c0 =
      chain B H ring M (proveCW B H ring M a u ds)
        (((proveSS B H ring M a u ds).zip
            (ring.rotate (signerIndex B ring a))).take
          (ring.length - signerIndex B ring a)) :=
    rfl
  rw [hss, hc0,
    if_neg (by rw [List.length_rotate, hlenss]; exact fun h => h rfl),
    if_pos hrot]

/-- Claim C1: completeness of the ring signature — for every ring containing
the signer's public key A = a·B, every message M, and every choice of
randomness, `prove` succeeds and the signature it returns is accepted
(empty error string) by `verify` over the same ring and message, which is
exactly the round trip `publishMessage` performs after a successful prove. -/
theorem prove_verify_completeness (hA : a • B ∈ ring) :
    ∃ σ : Sig, prove B H ring M a u ds = Except.ok σ ∧
      verify B H ring M σ = "" := by
  refine ⟨proveSig B H ring M a u ds, ?_, proveSig_verify B H ring M a u ds hA⟩
  rw [prove, if_pos hA]

end Core

/-- Witness for C1: a concrete one-member ring over the group ℤ/ℓ itself
(base point 1, signer scalar 1), with a concrete hash function. -/
theorem prove_verify_completeness_witness :
    ((1 : Scalar) • (1 : Scalar)) ∈ [(1 : Scalar)] ∧
      ∃ σ : Sig,
        prove (G := Scalar) 1 (fun _ _ r => r) [1] "m" 1 0 (fun _ => 0) =
          Except.ok σ ∧
        verify (G := Scalar) 1 (fun _ _ r => r) [1] "m" σ = "" :=
  ⟨by simp, prove_verify_completeness 1 (fun _ _ r => r) [1] "m" 1 0
    (fun _ => 0) (by simp)⟩

/-! ## The signing page (src/webapp/index.js) -/

/-- An author entry as built by `addAuthor` in src/webapp/index.js. -/
structure Author where
  platform : String
  username : String
  avatarURL : String
  keys : List String
deriving DecidableEq

/-- Mirrors the flattening loop of `publishMessage`
(src/webapp/index.js lines 142-148): for each author in order, push each of
its keys in order onto `publicKeys`. -/
def publishPublicKeys (authors : List Author) : List String :=
  authors.foldl (fun publicKeys author =>
    author.keys.foldl (fun publicKeys k => publicKeys ++ [k]) publicKeys) []

/-- Mirrors the flattening loop of `performVerification`
(src/unnamed/part_000 lines 74-77): for each author in order, spread its
whole `keys` array onto `publicKeys`. -/
def verifyPublicKeys (authors : List Author) : List String :=
  authors.foldl (fun publicKeys author => publicKeys ++ author.keys) []

theorem foldl_push_eq_append (l : List String) (acc : List String) :
    l.foldl (fun publicKeys k => publicKeys ++ [k]) acc = acc ++ l := by
  induction l generalizing acc with
  | nil => simp
  | cons x xs ih => simp [List.foldl_cons, ih]

theorem verifyPublicKeys_foldl (authors : List Author) (acc : List String) :
    authors.foldl (fun publicKeys author => publicKeys ++ author.keys) acc =
      acc ++ (authors.map Author.keys).flatten := by
  induction authors generalizing acc with
  | nil => simp
  | cons x xs ih => simp [List.foldl_cons, ih]

/-- Claim C2: the signing page and the verifying page build the public-key
list passed to the core identically — both equal the flattening of each
author's `keys` array in author order and, within an author, in key order,
so the ring order at signing time equals the ring order at verification
time for the same authors array. -/
theorem publishPublicKeys_eq_verifyPublicKeys (authors : List Author) :
    publishPublicKeys authors = verifyPublicKeys authors ∧
      publishPublicKeys authors = (authors.map Author.keys).flatten := by
  have h : publishPublicKeys authors = verifyPublicKeys authors := by
    rw [publishPublicKeys, verifyPublicKeys]
    congr 1
    funext publicKeys author
    exact foldl_push_eq_append author.keys publicKeys
  refine ⟨h, ?_⟩
  rw [h, verifyPublicKeys, verifyPublicKeys_foldl, List.nil_append]

/-! ## GitHub key filtering (claim C3) -/

/-- One entry of the GitHub `/users/<login>/keys` API response as consumed
by `addAuthor`: its `key` field is `some s` when the field is a string `s`,
and `none` when it is absent or not a string. -/
structure KeyEntry where
  key : Option String
deriving DecidableEq

/-- JavaScript's `s.startsWith(pre)`: `pre` is a prefix of the character
sequence of `s`. -/
def jsStartsWith (s pre : String) : Bool :=
  pre.data.isPrefixOf s.data

/-- Mirrors the key-filtering loop of `addAuthor` (src/webapp/index.js
lines 64-77, identical to src/webapp/src/App.js lines 86-100): skip entries
whose `key` is not a string, skip those not starting with "ssh-ed25519 ",
skip those whose length is not exactly 80, and push the rest. -/
def addAuthorKeys (keysObj : List KeyEntry) : List String :=
  keysObj.foldl (fun keys e =>
    match e.key with
    | none => keys
    | some k =>
      if !(jsStartsWith k "ssh-ed25519 ") then keys
      else if k.length != 80 then keys
      else keys ++ [k]) []

/-- The filter the claim describes (the spec's words): keep exactly the
entries whose `key` field is a string starting with "ssh-ed25519 ", with no
length condition. -/
def claimPrefixKeys (keysObj : List KeyEntry) : List String :=
  keysObj.filterMap (fun e =>
    match e.key with
    | none => none
    | some k => if jsStartsWith k "ssh-ed25519 " then some k else none)

/-- Counterexample to claim C3 as stated: a well-formed entry whose `key`
starts with "ssh-ed25519 " but is 16 characters long (e.g. a key line bearing
a short blob or a comment) is dropped by the code's length-80 test, so the
keys passed on are not exactly the prefix-filtered entries. -/
theorem addAuthorKeys_ne_claimPrefixKeys :
    addAuthorKeys [⟨some "ssh-ed25519 AAAA"⟩] = [] ∧
      claimPrefixKeys [⟨some "ssh-ed25519 AAAA"⟩] = ["ssh-ed25519 AAAA"] ∧
      addAuthorKeys [⟨some "ssh-ed25519 AAAA"⟩] ≠
        claimPrefixKeys [⟨some "ssh-ed25519 AAAA"⟩] := by
  refine ⟨by decide, by decide, by decide⟩

theorem foldl_push_filterMap (p : KeyEntry → Option String)
    (l : List KeyEntry) (acc : List String) :
    l.foldl (fun keys e =>
        match p e with
        | none => keys
        | some k => keys ++ [k]) acc =
      acc ++ l.filterMap p := by
  induction l generalizing acc with
  | nil => simp
  | cons e rest ih =>
    rw [List.foldl_cons, List.filterMap_cons]
    cases hp : p e with
    | none => simpa only [hp] using ih acc
    | some k => simp only [hp, ih (acc ++ [k]), List.append_assoc,
        List.singleton_append]

/-- Claim C3 as amended: `addAuthor` passes to the core exactly those
entries whose `key` field is a string that starts with "ssh-ed25519 " and
whose total length is exactly 80 characters. -/
theorem addAuthorKeys_eq_filter (keysObj : List KeyEntry) :
    addAuthorKeys keysObj = keysObj.filterMap (fun e =>
      match e.key with
      | none => none
      | some k =>
        if jsStartsWith k "ssh-ed25519 " && k.length == 80 then some k
        else none) := by
  have hfun : (fun (keys : List String) (e : KeyEntry) =>
      match e.key with
      | none => keys
      | some k =>
        if !(jsStartsWith k "ssh-ed25519 ") then keys
        else if k.length != 80 then keys
        else keys ++ [k]) =
      (fun (keys : List String) (e : KeyEntry) =>
        match (match e.key with
          | none => none
          | some k =>
            if jsStartsWith k "ssh-ed25519 " && k.length == 80 then some k
            else none : Option String) with
        | none => keys
        | some k => keys ++ [k]) := by
    funext keys e
    rcases e with ⟨_ | k⟩
    · rfl
    · by_cases h1 : jsStartsWith k "ssh-ed25519 " <;>
        by_cases h2 : k.length = 80 <;> simp [h1, h2]
  rw [addAuthorKeys, hfun, foldl_push_filterMap, List.nil_append]

/-! ## publishMessage (src/webapp/index.js lines 130-184)

The three core operations run in the wasm worker; they enter the model as
function parameters.  DOM reads (the signature box, the message box) enter
as string parameters, and the calls sent to the worker are recorded as an
explicit trace. -/

/-- A request posted to the worker by the write page. -/
inductive CoreCall where
  | isSecretKeyQuery (secretKey : String)
  | proveQuery (publicKeys : List String) (message : String) (secretKey : String)
  | verifyQuery (proof : String) (publicKeys : List String) (message : String)
deriving DecidableEq

/-- The outcome of `publishMessage`: either the error DOM is set to a
non-empty message and the function returns early, or the flow reaches the
end (which clears the error DOM). -/
inductive PublishResult where
  | success
  | errorShown (message : String)
deriving DecidableEq

/-- Mirrors `publishMessage` (src/webapp/index.js lines 130-184): query
`isSecretKey` on the signature box; flatten the authors' keys; if the box
held a secret key, call `prove` and abort on a non-empty error slot,
otherwise use the box content itself as the proof; finally call `verify`
and abort on a non-empty result. -/
def publishMessage (isSecretKey : String → Bool)
    (prove : List String → String → String → String × String)
    (verify : String → List String → String → String)
    (sigOrKey message : String) (authors : List Author) :
    PublishResult × List CoreCall :=
  let publicKeys := publishPublicKeys authors
  match (if isSecretKey sigOrKey then
      let pr := prove publicKeys message sigOrKey
      if pr.2 != "" then
        Except.error (PublishResult.errorShown ("unable to sign message: " ++ pr.2),
          [CoreCall.isSecretKeyQuery sigOrKey,
            CoreCall.proveQuery publicKeys message sigOrKey])
      else
        Except.ok (pr.1,
          [CoreCall.isSecretKeyQuery sigOrKey,
            CoreCall.proveQuery publicKeys message sigOrKey])
    else Except.ok (sigOrKey, [CoreCall.isSecretKeyQuery sigOrKey]) :
      Except (PublishResult × List CoreCall) (String × List CoreCall)) with
  | Except.error r => r
  | Except.ok (proof, calls) =>
    let v := verify proof publicKeys message
    let calls := calls ++ [CoreCall.verifyQuery proof publicKeys message]
    if v != "" then (PublishResult.errorShown ("proof is not valid: " ++ v), calls)
    else (PublishResult.success, calls)

/-! ## The verify page (src/unnamed/part_000 lines 1-262)

The downloaded document is a runtime-typed JSON value.  (JavaScript `null`
is omitted from the model: property access on `null` throws rather than
yielding `undefined`, which is outside this shallow embedding.) -/

/-- A JSON value as produced by `response.json()`. -/
inductive JSON where
  | str (s : String)
  | num (n : Int)
  | boolean (b : Bool)
  | arr (items : List JSON)
  | obj (fields : List (String × JSON))

/-- JavaScript property access `v.name`: `none` models `undefined`. -/
def JSON.getField : JSON → String → Option JSON
  | JSON.obj fields, name => fields.lookup name
  | _, _ => none

/-- JavaScript `typeof v === "string"` for a possibly-undefined value. -/
def typeofIsString : Option JSON → Bool
  | some (JSON.str _) => true
  | _ => false

/-- The string carried by a value already known to be a string. -/
def optAsString : Option JSON → String
  | some (JSON.str s) => s
  | _ => ""

/-- JavaScript `Array.isArray(v)` for a possibly-undefined value. -/
def isArrOpt : Option JSON → Bool
  | some (JSON.arr _) => true
  | _ => false

/-- The items of a value already known to be an array. -/
def optAsArr : Option JSON → List JSON
  | some (JSON.arr items) => items
  | _ => []

/-- Whether a JSON value is a string. -/
def JSON.isStr : JSON → Bool
  | JSON.str _ => true
  | _ => false

/-- The string carried by a JSON value already known to be a string. -/
def JSON.forceString : JSON → String
  | JSON.str s => s
  | _ => ""

/-- Mirrors the inner key loop of the validation
(src/unnamed/part_000 lines 61-67): the first failure message, if any. -/
def keysChecks : List JSON → Option String
  | [] => none
  | k :: rest =>
    if !(k.isStr) then some "key is malformed"
    else keysChecks rest

/-- Mirrors the author loop of the validation
(src/unnamed/part_000 lines 47-68): the first failure message, if any. -/
def authorsChecks : List JSON → Option String
  | [] => none
  | author :: rest =>
    if !(typeofIsString (author.getField "platform")) then
      some "author.platform is malformed"
    else if optAsString (author.getField "platform") != "GitHub" then
      some ("author.platform is not recognized: " ++
        optAsString (author.getField "platform"))
    else if !(isArrOpt (author.getField "keys")) then
      some "author.keys is malformed"
    else
      match keysChecks (optAsArr (author.getField "keys")) with
      | some e => some e
      | none => authorsChecks rest

/-- The `authors` array of the downloaded document. -/
def docAuthors (doc : JSON) : List JSON :=
  optAsArr (doc.getField "authors")

/-- Mirrors the flattening loop of src/unnamed/part_000 lines 74-77 on the
(already validated) document. -/
def docPublicKeys (doc : JSON) : List String :=
  (docAuthors doc).foldl (fun publicKeys author =>
    publicKeys ++ (optAsArr (author.getField "keys")).map JSON.forceString) []

/-- An observable step of `performVerification`: a status-bar update, a
fetch of a URL, or a verify request posted to the worker. -/
inductive VEvent where
  | statusUpdate (color message : String)
  | fetched (url : String)
  | verifyQuery (proof : String) (publicKeys : List String) (message : String)
deriving DecidableEq

/-- Whether an event is the verify request. -/
def VEvent.isVerifyQuery : VEvent → Bool
  | VEvent.verifyQuery _ _ _ => true
  | _ => false

/-- Mirrors `performVerification` after a successful download
(src/unnamed/part_000 lines 30-95): set the Processing status, run the
envelope validation with an early return on the first failure, then post
the verify request and report its outcome. -/
def performVerificationDoc (verify : String → List String → String → String)
    (doc : JSON) : List VEvent :=
  let processing := VEvent.statusUpdate "#FCD083" "Processing"
  if !(typeofIsString (doc.getField "proof")) then
    [processing, VEvent.statusUpdate "#D50000" "data.proof is malformed"]
  else if !(typeofIsString (doc.getField "message")) then
    [processing, VEvent.statusUpdate "#D50000" "data.message is malformed"]
  else if !(isArrOpt (doc.getField "authors")) then
    [processing, VEvent.statusUpdate "#D50000" "data.authors is malformed"]
  else
    match authorsChecks (docAuthors doc) with
    | some e => [processing, VEvent.statusUpdate "#D50000" e]
    | none =>
      let proof := optAsString (doc.getField "proof")
      let message := optAsString (doc.getField "message")
      let v := verify proof (docPublicKeys doc) message
      if v != "" then
        [processing, VEvent.verifyQuery proof (docPublicKeys doc) message,
          VEvent.statusUpdate "#D50000" ("Cryptographic proof is invalid: " ++ v)]
      else
        [processing, VEvent.verifyQuery proof (docPublicKeys doc) message,
          VEvent.statusUpdate "#CCF7B7" "Proof is Valid"]

/-- The envelope shape of the specification (§6, "Document envelope"):
`proof` a string, `message` a string, `authors` an array whose every
element has platform the string "GitHub" and a `keys` array of strings. -/
def authorOk (author : JSON) : Bool :=
  typeofIsString (author.getField "platform") &&
  optAsString (author.getField "platform") == "GitHub" &&
  isArrOpt (author.getField "keys") &&
  (optAsArr (author.getField "keys")).all JSON.isStr

/-- The whole document matches the envelope shape. -/
def docWellFormed (doc : JSON) : Bool :=
  typeofIsString (doc.getField "proof") &&
  typeofIsString (doc.getField "message") &&
  isArrOpt (doc.getField "authors") &&
  (docAuthors doc).all authorOk

theorem keysChecks_eq_none_iff (l : List JSON) :
    keysChecks l = none ↔ l.all JSON.isStr = true := by
  induction l with
  | nil => simp [keysChecks]
  | cons k rest ih =>
    cases hk : k.isStr <;> simp [keysChecks, hk, ih]

theorem authorsChecks_eq_none_iff (l : List JSON) :
    authorsChecks l = none ↔ l.all authorOk = true := by
  induction l with
  | nil => simp [authorsChecks]
  | cons author rest ih =>
    rw [authorsChecks, List.all_cons]
    cases h1 : typeofIsString (author.getField "platform")
    · simp [authorOk, h1]
    · cases h2 : optAsString (author.getField "platform") == "GitHub"
      · have h2' : optAsString (author.getField "platform") ≠ "GitHub" := by
          simpa using h2
        simp [authorOk, h1, h2, h2']
      · have h2' : optAsString (author.getField "platform") = "GitHub" := by
          simpa using h2
        cases h3 : isArrOpt (author.getField "keys")
        · simp [authorOk, h1, h2, h2', h3]
        · cases hk : keysChecks (optAsArr (author.getField "keys")) with
          | some e =>
            have : ¬ ((optAsArr (author.getField "keys")).all JSON.isStr = true) := by
              intro hall
              rw [← keysChecks_eq_none_iff] at hall
              rw [hall] at hk
              exact Option.noConfusion hk
            simp [authorOk, h1, h2, h2', h3, hk, this]
          | none =>
            have hall := (keysChecks_eq_none_iff _).1 hk
            simp [authorOk, h1, h2, h2', h3, hk, hall, ih]

/-- Claim C6: `performVerification` posts the verify request to the core
exactly when the downloaded document matches the envelope shape; on any
violation the trace is exactly the Processing update followed by one
malformed-data error status, with no verify request posted. -/
theorem performVerificationDoc_gate
    (verify : String → List String → String → String) (doc : JSON) :
    ((performVerificationDoc verify doc).any VEvent.isVerifyQuery =
        docWellFormed doc) ∧
      (docWellFormed doc = true ∨
        ∃ m, performVerificationDoc verify doc =
          [VEvent.statusUpdate "#FCD083" "Processing",
            VEvent.statusUpdate "#D50000" m]) := by
  rw [performVerificationDoc, docWellFormed]
  cases h1 : typeofIsString (doc.getField "proof")
  · exact ⟨by simp [h1, VEvent.isVerifyQuery],
      Or.inr ⟨"data.proof is malformed", by simp [h1]⟩⟩
  · cases h2 : typeofIsString (doc.getField "message")
    · exact ⟨by simp [h1, h2, VEvent.isVerifyQuery],
        Or.inr ⟨"data.message is malformed", by simp [h1, h2]⟩⟩
    · cases h3 : isArrOpt (doc.getField "authors")
      · exact ⟨by simp [h1, h2, h3, VEvent.isVerifyQuery],
          Or.inr ⟨"data.authors is malformed", by simp [h1, h2, h3]⟩⟩
      · cases hk : authorsChecks (docAuthors doc) with
        | some e =>
          have : ¬ ((docAuthors doc).all authorOk = true) := by
            intro hall
            rw [← authorsChecks_eq_none_iff] at hall
            rw [hall] at hk
            exact Option.noConfusion hk
          refine ⟨?_, Or.inr ⟨e, by simp [h1, h2, h3, hk]⟩⟩
          simp [h1, h2, h3, hk, VEvent.isVerifyQuery, this]
        | none =>
          have hall := (authorsChecks_eq_none_iff _).1 hk
          refine ⟨?_, Or.inl (by simp [h1, h2, h3, hall])⟩
          cases hv : verify (optAsString (doc.getField "proof"))
              (docPublicKeys doc) (optAsString (doc.getField "message")) != "" <;>
            simp [h1, h2, h3, hk, hv, VEvent.isVerifyQuery, hall]

/-- The outcome of the `fetch` of the skylink: an HTTP error status, a
thrown error (network failure or JSON parse failure), or a parsed body. -/
inductive FetchOutcome where
  | httpError (status : Nat)
  | netError (err : String)
  | ok (doc : JSON)

/-- Mirrors `performVerification` from the top (src/unnamed/part_000
lines 8-95): read the fragment, drop its leading character, require the
remaining skylink to be exactly 46 characters, fetch it from Skynet, and
hand the parsed document to the validation-and-verify stage. -/
def performVerification (fetch : String → FetchOutcome)
    (verify : String → List String → String → String) (hash : String) :
    List VEvent :=
  let skylink := String.mk (hash.data.drop 1)
  if skylink.length != 46 then
    [VEvent.statusUpdate "#D50000" "document hash should be 46 characters"]
  else
    let url := "https://siasky.net/" ++ skylink
    match fetch url with
    | FetchOutcome.httpError status =>
      [VEvent.fetched url,
        VEvent.statusUpdate "#D50000"
          ("Unable to download data, got response code " ++ toString status)]
    | FetchOutcome.netError err =>
      [VEvent.fetched url,
        VEvent.statusUpdate "#D50000" ("Unable to download data: " ++ err)]
    | FetchOutcome.ok doc =>
      VEvent.fetched url :: performVerificationDoc verify doc

/-- Claim C10: when the fragment text after the leading hash character is
not exactly 46 characters, `performVerification` sets the failure status
"document hash should be 46 characters" and returns — no fetch happens and
no verify request is posted. -/
theorem performVerification_hash_gate (fetch : String → FetchOutcome)
    (verify : String → List String → String → String) (hash : String)
    (h : (hash.data.drop 1).length ≠ 46) :
    performVerification fetch verify hash =
      [VEvent.statusUpdate "#D50000" "document hash should be 46 characters"] := by
  have hc : ((String.mk (hash.data.drop 1)).length != 46) = true := by
    show (((hash.data.drop 1)).length != 46) = true
    exact bne_iff_ne.2 h
  simp only [performVerification, hc, if_true]

/-- Witness for C10 at the concrete fragment "#abc" (skylink "abc", three
characters). -/
theorem performVerification_hash_gate_witness :
    (("#abc".data.drop 1).length ≠ 46) ∧
      performVerification (fun _ => FetchOutcome.netError "down")
          (fun _ _ _ => "") "#abc" =
        [VEvent.statusUpdate "#D50000" "document hash should be 46 characters"] :=
  ⟨by decide, performVerification_hash_gate _ _ _ (by decide)⟩

/-- Claim C4: the empty string is the success convention — `publishMessage`
reaches its success path exactly when prove's error slot (when prove ran at
all) and the verify result are both empty, and `performVerification`
declares the proof valid exactly when the document is well formed and the
core verify returned the empty string. -/
theorem empty_string_success (isSecretKey : String → Bool)
    (prove : List String → String → String → String × String)
    (verify : String → List String → String → String)
    (sigOrKey message : String) (authors : List Author) (doc : JSON) :
    ((publishMessage isSecretKey prove verify sigOrKey message authors).1 =
        PublishResult.success ↔
      (if isSecretKey sigOrKey then
          (prove (publishPublicKeys authors) message sigOrKey).2
        else "") = "" ∧
      verify
        (if isSecretKey sigOrKey then
            (prove (publishPublicKeys authors) message sigOrKey).1
          else sigOrKey)
        (publishPublicKeys authors) message = "") ∧
    (VEvent.statusUpdate "#CCF7B7" "Proof is Valid" ∈
        performVerificationDoc verify doc ↔
      docWellFormed doc = true ∧
      verify (optAsString (doc.getField "proof")) (docPublicKeys doc)
        (optAsString (doc.getField "message")) = "") := by
  constructor
  · rw [publishMessage]
    cases hsk : isSecretKey sigOrKey
    · cases hv : verify sigOrKey (publishPublicKeys authors) message != "" <;>
        simp_all
    · cases hp : (prove (publishPublicKeys authors) message sigOrKey).2 != ""
      · cases hv : verify (prove (publishPublicKeys authors) message sigOrKey).1
            (publishPublicKeys authors) message != "" <;> simp_all
      · simp_all
  · rw [performVerificationDoc, docWellFormed]
    cases h1 : typeofIsString (doc.getField "proof")
    · simp [h1]
    · cases h2 : typeofIsString (doc.getField "message")
      · simp [h1, h2]
      · cases h3 : isArrOpt (doc.getField "authors")
        · simp [h1, h2, h3]
        · cases hk : authorsChecks (docAuthors doc) with
          | some e =>
            have : ¬ ((docAuthors doc).all authorOk = true) := by
              intro hall
              rw [← authorsChecks_eq_none_iff] at hall
              rw [hall] at hk
              exact Option.noConfusion hk
            simp [h1, h2, h3, hk, this]
          | none =>
            have hall := (authorsChecks_eq_none_iff _).1 hk
            cases hv : verify (optAsString (doc.getField "proof"))
                (docPublicKeys doc) (optAsString (doc.getField "message")) != "" <;>
              simp_all

/-- Claim C5: `isSecretKey` gates prove — the worker calls issued by
`publishMessage` are exactly: the isSecretKey query; then, when it answered
true, a prove call on the flattened keys, the message and the box content,
followed (only when prove's error slot is empty) by a verify call on the
produced proof; when it answered false, a verify call taking the box
content itself as the proof — with the same flattened public-key list and
message in every call. -/
theorem publishMessage_calls (isSecretKey : String → Bool)
    (prove : List String → String → String → String × String)
    (verify : String → List String → String → String)
    (sigOrKey message : String) (authors : List Author) :
    (publishMessage isSecretKey prove verify sigOrKey message authors).2 =
      (if isSecretKey sigOrKey then
        [CoreCall.isSecretKeyQuery sigOrKey,
          CoreCall.proveQuery (publishPublicKeys authors) message sigOrKey] ++
        (if (prove (publishPublicKeys authors) message sigOrKey).2 = "" then
          [CoreCall.verifyQuery
            (prove (publishPublicKeys authors) message sigOrKey).1
            (publishPublicKeys authors) message]
        else [])
      else
        [CoreCall.isSecretKeyQuery sigOrKey,
          CoreCall.verifyQuery sigOrKey (publishPublicKeys authors) message]) := by
  rw [publishMessage]
  cases hsk : isSecretKey sigOrKey
  · cases hv : verify sigOrKey (publishPublicKeys authors) message != "" <;>
      simp_all
  · cases hp : (prove (publishPublicKeys authors) message sigOrKey).2 != ""
    · cases hv : verify (prove (publishPublicKeys authors) message sigOrKey).1
          (publishPublicKeys authors) message != "" <;> simp_all
    · simp_all

/-! ## The worker transport (src/webapp/index.js lines 200-226) and the
worker's own message handler (src/webapp/src/App.js lines 219-251) -/

/-- The page's mutable transport state: the global `workerNonce` counter
and the pending entries of `activeQueries`, keyed by nonce; the second
component of an entry identifies the resolver registered for it. -/
structure TransportState where
  workerNonce : ℕ
  activeQueries : List (ℕ × ℕ)
deriving DecidableEq

/-- Mirrors `postWorkerMessage` (src/webapp/index.js lines 204-219): the
request is stamped with the current counter value, the counter is
incremented, and the resolver is registered under the stamped nonce.
Returns the nonce put on the message together with the new state. -/
def postWorkerMessageStep (s : TransportState) (resolver : ℕ) :
    ℕ × TransportState :=
  (s.workerNonce,
    ⟨s.workerNonce + 1, (s.workerNonce, resolver) :: s.activeQueries⟩)

/-- Mirrors `handleWorkerMessage` (src/webapp/index.js lines 222-226): the
resolver registered under the response's nonce is invoked and its entry
deleted. -/
def handleWorkerMessageStep (s : TransportState) (respNonce : ℕ) :
    Option ℕ × TransportState :=
  (s.activeQueries.lookup respNonce,
    ⟨s.workerNonce, s.activeQueries.filter (fun q => q.1 != respNonce)⟩)

/-- One transport interaction of the page. -/
inductive TransportOp where
  | post (resolver : ℕ)
  | handle (respNonce : ℕ)
deriving DecidableEq

/-- The transport state after a sequence of interactions, starting from
counter 0 and no pending queries. -/
def runTransport (ops : List TransportOp) : TransportState :=
  ops.foldl (fun s op =>
    match op with
    | TransportOp.post r => (postWorkerMessageStep s r).2
    | TransportOp.handle m => (handleWorkerMessageStep s m).2) ⟨0, []⟩

/-- The transport invariant: pending nonces are pairwise distinct and all
below the counter. -/
def TransportInv (s : TransportState) : Prop :=
  (s.activeQueries.map Prod.fst).Nodup ∧
    s.activeQueries.all (fun q => q.1 < s.workerNonce) = true

theorem transportInv_run (ops : List TransportOp) :
    TransportInv (runTransport ops) := by
  rw [runTransport]
  suffices h : ∀ s : TransportState, TransportInv s →
      TransportInv (ops.foldl (fun s op =>
        match op with
        | TransportOp.post r => (postWorkerMessageStep s r).2
        | TransportOp.handle m => (handleWorkerMessageStep s m).2) s) from
    h ⟨0, []⟩ ⟨List.nodup_nil, rfl⟩
  induction ops with
  | nil => exact fun s hs => hs
  | cons op rest ih =>
    intro s hs
    rw [List.foldl_cons]
    apply ih
    obtain ⟨hnd, hlt⟩ := hs
    cases op with
    | post r =>
      constructor
      · show (((s.workerNonce, r) :: s.activeQueries).map Prod.fst).Nodup
        rw [List.map_cons, List.nodup_cons]
        refine ⟨?_, hnd⟩
        intro hmem
        obtain ⟨q, hq, hq1⟩ := List.mem_map.1 hmem
        have := (List.all_eq_true.1 hlt) q hq
        rw [hq1] at this
        exact absurd (of_decide_eq_true this) (lt_irrefl _)
      · show ((s.workerNonce, r) :: s.activeQueries).all
          (fun q => q.1 < s.workerNonce + 1) = true
        refine List.all_eq_true.2 ?_
        intro q hq
        rcases List.mem_cons.1 hq with h | h
        · subst h
          exact decide_eq_true (Nat.lt_succ_self _)
        · have := of_decide_eq_true ((List.all_eq_true.1 hlt) q h)
          exact decide_eq_true (Nat.lt_succ_of_lt this)
    | handle m =>
      constructor
      · show ((s.activeQueries.filter (fun q => q.1 != m)).map
          Prod.fst).Nodup
        exact ((List.filter_sublist _).map Prod.fst).nodup hnd
      · show (s.activeQueries.filter (fun q => q.1 != m)).all
          (fun q => q.1 < s.workerNonce) = true
        refine List.all_eq_true.2 ?_
        intro q hq
        exact (List.all_eq_true.1 hlt) q (List.mem_of_mem_filter hq)

theorem lookup_eq_some_iff (l : List (ℕ × ℕ)) (hnd : (l.map Prod.fst).Nodup)
    (m c : ℕ) : l.lookup m = some c ↔ (m, c) ∈ l := by
  induction l with
  | nil => simp [List.lookup]
  | cons q rest ih =>
    obtain ⟨k, v⟩ := q
    rw [List.map_cons, List.nodup_cons] at hnd
    by_cases hk : m = k
    · subst hk
      rw [List.lookup_cons_self]
      constructor
      · intro h
        rw [Option.some_inj] at h
        subst h
        exact List.mem_cons_self _ _
      · intro h
        rcases List.mem_cons.1 h with h | h
        · rw [Prod.mk.injEq] at h
          rw [h.2]
      -- the entry cannot live further down: its key is the head's key
        · exact absurd (List.mem_map.2 ⟨(m, c), h, rfl⟩) hnd.1
    · have hbeq : (m == k) = false := by simpa using hk
      simp only [List.lookup_cons, hbeq]
      rw [ih hnd.2]
      constructor
      · exact fun h => List.mem_cons_of_mem _ h
      · intro h
        rcases List.mem_cons.1 h with h | h
        · exact absurd (congrArg Prod.fst h) hk
        · exact h

/-- A request received by the worker. -/
structure WorkerRequest where
  method : String
  nonce : ℕ
  publicKeys : List String
  message : String
  secretKey : String
  proof : String
deriving DecidableEq

/-- A message posted back by the worker; exactly one payload field is
populated depending on the method. -/
structure WorkerResponse where
  nonce : ℕ
  proof : Option (String × String)
  isSecretKey : Option Bool
  isValidProof : Option String
deriving DecidableEq

/-- Mirrors the worker's `onmessage` handler (src/webapp/src/App.js lines
219-251): for each of the three known methods, call the corresponding core
function and post exactly one response carrying the request's nonce; any
other method falls through with no response. -/
def workerOnMessage (prove : List String → String → String → String × String)
    (is_secret_key : String → Bool)
    (verify : String → List String → String → String)
    (req : WorkerRequest) : List WorkerResponse :=
  if req.method == "prove" then
    [⟨req.nonce, some (prove req.publicKeys req.message req.secretKey),
      none, none⟩]
  else if req.method == "isSecretKey" then
    [⟨req.nonce, none, some (is_secret_key req.secretKey), none⟩]
  else if req.method == "verify" then
    [⟨req.nonce, none, none,
      some (verify req.proof req.publicKeys req.message)⟩]
  else []

/-- Claim C7: the transport's nonce correlation — after any sequence of
posts and responses the pending nonces are pairwise distinct and below the
counter; a post stamps the current counter value and increments it; the
worker answers each of the three methods with exactly one response
carrying the request's nonce; and handling a response resolves precisely
the entry registered under that nonce and deletes exactly that entry. -/
theorem worker_nonce_correlation (ops : List TransportOp) (m c : ℕ)
    (q : ℕ × ℕ)
    (prove : List String → String → String → String × String)
    (is_secret_key : String → Bool)
    (verify : String → List String → String → String)
    (req : WorkerRequest) :
    ((runTransport ops).activeQueries.map Prod.fst).Nodup ∧
    (runTransport ops).activeQueries.all
      (fun p => p.1 < (runTransport ops).workerNonce) = true ∧
    (postWorkerMessageStep (runTransport ops) c).1 =
      (runTransport ops).workerNonce ∧
    (postWorkerMessageStep (runTransport ops) c).2.workerNonce =
      (runTransport ops).workerNonce + 1 ∧
    ((handleWorkerMessageStep (runTransport ops) m).1 = some c ↔
      (m, c) ∈ (runTransport ops).activeQueries) ∧
    (q ∈ (handleWorkerMessageStep (runTransport ops) m).2.activeQueries ↔
      q ∈ (runTransport ops).activeQueries ∧ q.1 ≠ m) ∧
    (workerOnMessage prove is_secret_key verify req).length =
      (if req.method = "prove" ∨ req.method = "isSecretKey" ∨
          req.method = "verify" then 1 else 0) ∧
    (workerOnMessage prove is_secret_key verify req).all
      (fun r => r.nonce == req.nonce) = true := by
  obtain ⟨hnd, hlt⟩ := transportInv_run ops
  refine ⟨hnd, hlt, rfl, rfl, lookup_eq_some_iff _ hnd m c, ?_, ?_, ?_⟩
  · rw [handleWorkerMessageStep]
    simp [List.mem_filter]
  · rw [workerOnMessage]
    by_cases h1 : req.method = "prove"
    · simp [h1]
    · by_cases h2 : req.method = "isSecretKey"
      · simp [h1, h2]
      · by_cases h3 : req.method = "verify"
        · simp [h1, h2, h3]
        · simp [h1, h2, h3]
  · rw [workerOnMessage]
    by_cases h1 : req.method = "prove"
    · simp [h1]
    · by_cases h2 : req.method = "isSecretKey"
      · simp [h1, h2]
      · by_cases h3 : req.method = "verify"
        · simp [h1, h2, h3]
        · simp [h1, h2, h3]

/-! ## Author uniqueness on the write page (claim C8) -/

/-- Mirrors `isDuplicateAuthor` (src/webapp/index.js lines 23-30): some
existing author has the same username. -/
def isDuplicateAuthor (authors : List Author) (newAuthor : Author) : Bool :=
  authors.any (fun a => a.username == newAuthor.username)

/-- The state effect of one completed `addAuthor` call
(src/webapp/index.js lines 35-126): the duplicate check before the key
fetch and again immediately before the push, the no-valid-keys early
return, and the push itself.  The fetch outcome is `none` when the
response was not ok or the call threw. -/
def addAuthorStep (authors : List Author) (username avatarURL : String)
    (response : Option (List KeyEntry)) : List Author :=
  if isDuplicateAuthor authors ⟨"GitHub", username, avatarURL, []⟩ then
    authors
  else
    match response with
    | none => authors
    | some keysObj =>
      let keys := addAuthorKeys keysObj
      if keys.length == 0 then authors
      else
        let newAuthor : Author := ⟨"GitHub", username, avatarURL, keys⟩
        if isDuplicateAuthor authors newAuthor then authors
        else authors ++ [newAuthor]

theorem addAuthorStep_nodup (authors : List Author)
    (username avatarURL : String) (response : Option (List KeyEntry))
    (h : (authors.map Author.username).Nodup) :
    ((addAuthorStep authors username avatarURL response).map
      Author.username).Nodup := by
  rw [addAuthorStep.eq_def]
  cases h1 : isDuplicateAuthor authors ⟨"GitHub", username, avatarURL, []⟩
  · cases response with
    | none => exact h
    | some keysObj =>
      by_cases hk : (addAuthorKeys keysObj).length == 0
      · simpa [hk] using h
      · cases h2 : isDuplicateAuthor authors
            ⟨"GitHub", username, avatarURL, addAuthorKeys keysObj⟩
        · have hmem : username ∉ authors.map Author.username := by
            intro hmem
            obtain ⟨a, ha, ha1⟩ := List.mem_map.1 hmem
            rw [isDuplicateAuthor] at h2
            have := List.any_eq_false.1 h2 a ha
            exact this (by simpa using ha1)
          simp only [hk, if_false, h2, Bool.false_eq_true, List.map_append]
          rw [List.nodup_append]
          exact ⟨h, List.nodup_singleton _, by simpa using hmem⟩
        · simpa [hk, h2] using h
  · exact h

/-- Claim C8: the global authors array never contains two entries with the
same username — starting from the empty array, any sequence of completed
`addAuthor` calls leaves the usernames pairwise distinct, because the
duplicate check runs again immediately before every push. -/
theorem authors_usernames_nodup
    (calls : List (String × String × Option (List KeyEntry))) :
    ((calls.foldl (fun s c => addAuthorStep s c.1 c.2.1 c.2.2) []).map
      Author.username).Nodup := by
  suffices h : ∀ s : List Author, (s.map Author.username).Nodup →
      ((calls.foldl (fun s c => addAuthorStep s c.1 c.2.1 c.2.2) s).map
        Author.username).Nodup from h [] List.nodup_nil
  induction calls with
  | nil => exact fun s hs => hs
  | cons call rest ih =>
    intro s hs
    rw [List.foldl_cons]
    exact ih _ (addAuthorStep_nodup s call.1 call.2.1 call.2.2 hs)

/-! ## escapeHtml and message rendering (src/unnamed/part_000
lines 106-110 and 245-260) -/

/-- Mirrors `entityMap` (src/unnamed/part_000 lines 246-255): the eight
escaped characters and their HTML entities.  (The quote, apostrophe and
backtick characters are written by code point: 34, 39 and 96.) -/
def entityMap : List (Char × String) :=
  [('&', "&amp;"), ('<', "&lt;"), ('>', "&gt;"),
    (Char.ofNat 34, "&quot;"), (Char.ofNat 39, "&#39;"),
    ('/', "&#x2F;"), (Char.ofNat 96, "&#x60;"), ('=', "&#x3D;")]

/-- One step of the global regex replace of `escapeHtml`: a character of
the matched class is sent through `entityMap`, every other character is
kept. -/
def escapeChar (c : Char) : String :=
  match entityMap.lookup c with
  | some e => e
  | none => String.mk [c]

/-- Mirrors `escapeHtml` (src/unnamed/part_000 lines 256-260): the global
single-character regex replace, character by character over the string. -/
def escapeHtml (s : String) : String :=
  String.join (s.data.map escapeChar)

/-- The escaping the claim describes, character by character in its own
words: each of the eight special characters becomes its entity, every
other character is left unchanged. -/
def escapeCharClaim (c : Char) : String :=
  if c = '&' then "&amp;"
  else if c = '<' then "&lt;"
  else if c = '>' then "&gt;"
  else if c = Char.ofNat 34 then "&quot;"
  else if c = Char.ofNat 39 then "&#39;"
  else if c = '/' then "&#x2F;"
  else if c = Char.ofNat 96 then "&#x60;"
  else if c = '=' then "&#x3D;"
  else String.mk [c]

/-- The claim's escaping over a whole string. -/
def escapeHtmlClaim (s : String) : String :=
  String.join (s.data.map escapeCharClaim)

/-- Mirrors `replaceAll` with the pattern of two consecutive newlines
(src/unnamed/part_000 line 110): left-to-right, non-overlapping
replacement by the double line-break markup. -/
def replaceNN : List Char → List Char
  | [] => []
  | [c] => [c]
  | c1 :: c2 :: rest =>
    if c1 = '\n' ∧ c2 = '\n' then "<br /><br />".data ++ replaceNN rest
    else c1 :: replaceNN (c2 :: rest)

/-- Mirrors `setMessageDOM` line 110: the verify page renders the message
as `escapeHtml(message)` with every double newline replaced. -/
def renderMessage (message : String) : String :=
  String.mk (replaceNN (escapeHtml message).data)

theorem escapeChar_eq_claim (c : Char) : escapeChar c = escapeCharClaim c := by
  rcases eq_or_ne c '&' with h | h1
  · subst h; rfl
  rcases eq_or_ne c '<' with h | h2
  · subst h; rfl
  rcases eq_or_ne c '>' with h | h3
  · subst h; rfl
  rcases eq_or_ne c (Char.ofNat 34) with h | h4
  · subst h; rfl
  rcases eq_or_ne c (Char.ofNat 39) with h | h5
  · subst h; rfl
  rcases eq_or_ne c '/' with h | h6
  · subst h; rfl
  rcases eq_or_ne c (Char.ofNat 96) with h | h7
  · subst h; rfl
  rcases eq_or_ne c '=' with h | h8
  · subst h; rfl
  have b1 : (c == '&') = false := beq_eq_false_iff_ne.2 h1
  have b2 : (c == '<') = false := beq_eq_false_iff_ne.2 h2
  have b3 : (c == '>') = false := beq_eq_false_iff_ne.2 h3
  have b4 : (c == Char.ofNat 34) = false := beq_eq_false_iff_ne.2 h4
  have b5 : (c == Char.ofNat 39) = false := beq_eq_false_iff_ne.2 h5
  have b6 : (c == '/') = false := beq_eq_false_iff_ne.2 h6
  have b7 : (c == Char.ofNat 96) = false := beq_eq_false_iff_ne.2 h7
  have b8 : (c == '=') = false := beq_eq_false_iff_ne.2 h8
  rw [escapeChar, escapeCharClaim, entityMap]
  simp only [List.lookup_cons, b1, b2, b3, b4, b5, b6, b7, b8,
    List.lookup_nil, h1, h2, h3, h4, h5, h6, h7, h8, if_neg, if_false]

/-- Claim C9: `escapeHtml` returns the string obtained by replacing each
occurrence of the eight special characters with its entity from
`entityMap` and leaving every other character untouched, and the verify
page renders the message as that escaping with each double newline
replaced by the double line break. -/
theorem escapeHtml_renderMessage_correct (s message : String) :
    escapeHtml s = escapeHtmlClaim s ∧
      renderMessage message =
        String.mk (replaceNN (escapeHtmlClaim message).data) := by
  have h : ∀ t : String, escapeHtml t = escapeHtmlClaim t := by
    intro t
    rw [escapeHtml, escapeHtmlClaim]
    congr 1
    exact List.map_congr_left fun c _ => escapeChar_eq_claim c
  exact ⟨h s, by rw [renderMessage, h message]⟩

end CredibleConfessions
